import Mathlib

/-!
Verification of the `game_suggest` repository (`src/game_analyzer.py`)
against its natural-language specification.

The Python source is shallowly embedded below.  Pure computations (the
price-string parser, the discount-statistics derivation, the
recommendation scoring) become Lean functions on `List Char` / `ℚ` /
`Int`; the stateful acquisition pipeline (`get_game_data`) becomes an
explicit state-passing function over a model of the persistent store,
the CSV cache and the fetched web pages.  Python `float` arithmetic is
modelled with exact rationals, and Python dates with whole-day numbers
(an `Int` day ordinal), matching the `.days` granularity used by the
source.  Fallible steps (network fetches, `ValueError` from `float`)
are modelled with explicit outcome data, never with exceptions.
-/

namespace GameAnalyzer

/-! ### Price parser (`get_game_data`, source lines 344-385)

The source strips every character that is not a digit, a comma or a dot
(`re.sub(r'[^\d,.]', '', price_text)`), then branches on whether a
comma, a dot, or only digits remain, and converts with Python `float`,
catching `ValueError` by substituting `0.0` and logging a warning.

The conversion is split into a character-level stage
(`pyFloatParts` / `priceParseParts`, producing the integer digits, the
fraction digits and the fraction length, all in `Nat`) and a thin
rational assembly (`partsVal`); `priceParse` composes the two.  The
split is only plumbing: `priceParse` is the function the source
computes. -/

/-- Value of a digit character (`'0'` has code point 48). -/
def digitVal (c : Char) : Nat := c.toNat - 48

/-- Numeric value of a digit string, most significant digit first. -/
def digitsVal (cs : List Char) : Nat :=
  cs.foldl (fun n c => 10 * n + digitVal c) 0

/-- Whether Python `float(s)` accepts the string, restricted to the
shapes the source can pass to `float` (after its replacements only
digits and dots remain): every character a digit or a dot, at most one
dot, and at least one digit.  Strings such as `""`, `"."` or `"1.2.3"`
raise `ValueError`, i.e. are rejected here. -/
def pyFloatOk (cs : List Char) : Bool :=
  cs.all (fun c => c.isDigit || c = '.') &&
    decide ((cs.filter (fun c => c = '.')).length ≤ 1) &&
    cs.any (fun c => c.isDigit)

/-- Character-level result of Python `float` on a digits-and-dot
string: integer-part value, fraction-part value, fraction length.
`none` where Python raises `ValueError`. -/
def pyFloatParts (cs : List Char) : Option (Nat × Nat × Nat) :=
  if pyFloatOk cs then
    some (digitsVal (cs.takeWhile (fun c => c ≠ '.')),
          digitsVal ((cs.dropWhile (fun c => c ≠ '.')).drop 1),
          ((cs.dropWhile (fun c => c ≠ '.')).drop 1).length)
  else none

/-- Assembles the exact rational a successful `float` denotes. -/
def partsVal : Nat × Nat × Nat → ℚ
  | (i, f, l) => (i : ℚ) + (f : ℚ) / (10 : ℚ) ^ l

/-- Python `float` on a digits-and-dot string, as an exact rational. -/
def pyFloat (cs : List Char) : Option ℚ := (pyFloatParts cs).map partsVal

/-- The cleaning step `re.sub(r'[^\d,.]', '', price_text)`: keep only
digits, commas and dots. -/
def cleanPrice (s : String) : List Char :=
  s.data.filter (fun c => c.isDigit || c = ',' || c = '.')

/-- Character-level stage of the price-parsing block (source lines
349-381).  First component: the successful `float` parts (`none` when
the parsed amount is `0.0` without a conversion, i.e. an empty numeric
string or the warning fallbacks).  Second component: whether the
unparseable-price warning was logged.  Branches, in source order:
a comma present means dots are removed as thousands separators and the
comma becomes the decimal dot; else a dot present means the dot is the
decimal separator and stray commas are removed; else a nonempty
all-digit string is read with its last two digits as cents (a single
digit is a whole amount); anything else is `0.0` with a warning, as is
a `ValueError` from `float`. -/
def priceParseParts (s : String) : Option (Nat × Nat × Nat) × Bool :=
  let cleaned := cleanPrice s
  if ',' ∈ cleaned then
    let numeric := (cleaned.filter (fun c => c ≠ '.')).map
      (fun c => if c = ',' then '.' else c)
    if numeric = [] then (none, false)
    else match pyFloatParts numeric with
      | some p => (some p, false)
      | none => (none, true)
  else if '.' ∈ cleaned then
    let numeric := cleaned.filter (fun c => c ≠ ',')
    if numeric = [] then (none, false)
    else match pyFloatParts numeric with
      | some p => (some p, false)
      | none => (none, true)
  else if (!cleaned.isEmpty) && cleaned.all (fun c => c.isDigit) then
    if 2 ≤ cleaned.length then
      match pyFloatParts (cleaned.take (cleaned.length - 2) ++
          '.' :: cleaned.drop (cleaned.length - 2)) with
      | some p => (some p, false)
      | none => (none, true)
    else if cleaned.length = 1 then
      match pyFloatParts cleaned with
      | some p => (some p, false)
      | none => (none, true)
    else (none, false)
  else (none, true)

/-- The price parsed from a raw price text, together with the flag
recording whether the unparseable-price warning path was taken. -/
def priceParse (s : String) : ℚ × Bool :=
  ((priceParseParts s).1.elim 0 partsVal, (priceParseParts s).2)

/-! ### Discount statistics (`get_game_data`, source lines 420-446)

The source collects the parsed dates of the price-history table, sorts
them descending (`dates.sort(reverse=True)`), takes the most recent as
`last_discount`, the day distance to now as `days_since_last_discount`,
and, when more than one date exists, averages the non-negative
consecutive day gaps. -/

/-- `dates.sort(reverse=True)`: stable descending sort. -/
def sortDesc (l : List Int) : List Int := List.insertionSort (· ≥ ·) l

/-- Day gaps between consecutive entries,
`[(dates[i] - dates[i+1]).days for i in range(len(dates)-1)]`. -/
def consecGaps : List Int → List Int
  | [] => []
  | [_] => []
  | a :: b :: t => (a - b) :: consecGaps (b :: t)

/-- The three derived discount fields of a record. -/
structure DiscountStats where
  last_discount : Option Int
  days_since_last_discount : Option Int
  avg_days_between_discounts : Option ℚ
deriving DecidableEq

/-- The discount-statistics derivation of the source: all fields absent
for an empty date list; otherwise the head of the descending sort is
the last discount, `today - head` the days since, and for two or more
dates the average of the non-negative consecutive gaps (absent if the
retained gap list is empty). -/
def discountStats (today : Int) (dates : List Int) : DiscountStats :=
  match sortDesc dates with
  | [] => ⟨none, none, none⟩
  | d :: rest =>
    if rest = [] then ⟨some d, some (today - d), none⟩
    else
      let diffs := (consecGaps (d :: rest)).filter (fun g => 0 ≤ g)
      if diffs = [] then ⟨some d, some (today - d), none⟩
      else ⟨some d, some (today - d), some ((diffs.sum : ℚ) / (diffs.length : ℚ))⟩

/-! ### HTML cache filenames (`get_html_cache_filename` lines 78-80,
`get_steamdb_cache_filename` lines 104-106)

Both compute `url.replace("/", "_").replace(":", "_")` and wrap it in
the cache directory and an `.html` ending; the SteamDB namespace adds a
`steamdb_` marker.  Single-character `str.replace` is a character map,
embedded at the `List Char` level. -/

/-- `url.replace("/", "_").replace(":", "_")`. -/
def sanitizeUrl (url : List Char) : List Char :=
  (url.map (fun c => if c = '/' then '_' else c)).map
    (fun c => if c = ':' then '_' else c)

/-- `os.path.join('html_cache', f'{sanitized}.html')`. -/
def htmlCacheFilename (url : List Char) : List Char :=
  ("html_cache/").data ++ sanitizeUrl url ++ (".html").data

/-- `os.path.join('html_cache', f'steamdb_{sanitized}.html')`. -/
def steamdbCacheFilename (url : List Char) : List Char :=
  ("html_cache/steamdb_").data ++ sanitizeUrl url ++ (".html").data

/-! ### HTTP GET call sites (source lines 142, 178, 211-215, 303, 402)

`get_game_data` builds a browser-identity header dictionary and passes
it to the listing-page and detail-page `session.get` calls.
`search_steamdb` and `get_steam_rating` call `requests.get(url)` with
no `headers` argument, which sends the default library identity; that
is recorded as an empty explicit header list. -/

/-- An HTTP GET as issued by one call site: the URL and the explicitly
passed header pairs. -/
structure HttpGet where
  url : String
  headers : List (String × String)
deriving DecidableEq

/-- The `headers` dictionary of `get_game_data` (lines 211-215). -/
def browserHeaders : List (String × String) :=
  [("User-Agent", "Mozilla/5.0 (Windows NT 10.0; Win64; x64) AppleWebKit/537.36 (KHTML, like Gecko) Chrome/91.0.4472.124 Safari/537.36"),
   ("Accept", "text/html,application/xhtml+xml,application/xml;q=0.9,image/webp,*/*;q=0.8"),
   ("Accept-Language", "en-US,en;q=0.5")]

/-- Listing-page fetch, `session.get(url, headers=headers, timeout=15)`
(line 303). -/
def listingPageGet (url : String) : HttpGet := ⟨url, browserHeaders⟩

/-- Detail-page fetch, `session.get(detail_url, headers=headers,
timeout=15)` (line 402). -/
def detailPageGet (url : String) : HttpGet := ⟨url, browserHeaders⟩

/-- External-rating search fetch, `requests.get(search_url)`
(line 142): no headers argument. -/
def steamdbSearchGet (url : String) : HttpGet := ⟨url, []⟩

/-- External-rating detail fetch, `requests.get(app_url)` (line 178):
no headers argument. -/
def steamdbAppGet (url : String) : HttpGet := ⟨url, []⟩

/-- The four GET shapes the pipeline issues, at a given URL. -/
def pipelineGets (url : String) : List HttpGet :=
  [listingPageGet url, detailPageGet url, steamdbSearchGet url, steamdbAppGet url]

/-! ### Data model and acquisition pipeline (`get_game_data`,
source lines 209-554)

A `Game` is the record the source assembles and persists (the `games`
table row).  A `Card` is one listing-card stub together with the data
its detail page would yield on the modelled web: score fields, the
external rating, and the parsed history dates; `detailOk = false`
stands for a failed detail fetch (`RequestException`), which makes the
source skip the item.  A `Page` is one listing page: whether its fetch
succeeded, its cards, and whether a next-page signal exists.  The crawl
walks pages in order, stopping on a failed fetch, an empty card list or
a missing next-page signal, exactly as the `while True` loop does. -/

/-- One row of the `games` table / one assembled record. -/
structure Game where
  title : String
  current_price : ℚ
  metascore : Option Int
  openscore : Option Int
  steam_score : Option ℚ
  last_discount : Option Int
  avg_days_between_discounts : Option ℚ
  days_since_last_discount : Option Int
deriving DecidableEq

/-- One listing card with the detail data behind it.  `title = none`
models a card with no title element; `priceText = none` a card with no
price element; `hasDetailUrl = false` a card with no detail link. -/
structure Card where
  title : Option String
  priceText : Option String
  hasDetailUrl : Bool
  detailOk : Bool
  metascore : Option Int
  openscore : Option Int
  steam_score : Option ℚ
  dates : List Int
deriving DecidableEq

/-- One listing page of the modelled web. -/
structure Page where
  fetchOk : Bool
  cards : List Card
  hasNext : Bool
deriving DecidableEq

/-- `SELECT 1 FROM games WHERE title=?` (`game_exists_in_db`,
lines 44-51). -/
def existsInStore (t : String) (store : List Game) : Bool :=
  store.any (fun g => g.title = t)

/-- `INSERT OR REPLACE INTO games` keyed by title (`save_game_to_db`,
lines 53-76): replace the row with the same title in place, else
append. -/
def upsert (g : Game) : List Game → List Game
  | [] => [g]
  | h :: t => if h.title = g.title then g :: t else h :: upsert g t

/-- State threaded through the scrape loop: the persistent store, the
in-memory result list (`all_games`), the titles whose detail pages were
accessed, and `games_processed_count`. -/
structure ScrapeState where
  store : List Game
  results : List Game
  detailPages : List String
  processed : Nat
deriving DecidableEq

/-- Processing of one listing card (source lines 323-469): skip if no
title element; skip if the title already exists in the store (before
anything else is done, lines 332-337); otherwise parse the price, and
if a detail link exists access the detail page; on a successful detail
fetch assemble the record from the scores and the discount statistics,
save it to the store at once, and append it to the results. -/
def processCard (today : Int) (st : ScrapeState) (c : Card) : ScrapeState :=
  match c.title with
  | none => st
  | some t =>
    if existsInStore t st.store then st
    else
      let price : ℚ := match c.priceText with
        | some p => (priceParse p).1
        | none => 0
      let st1 : ScrapeState := { st with processed := st.processed + 1 }
      if ¬ c.hasDetailUrl then st1
      else
        let st2 : ScrapeState := { st1 with detailPages := st1.detailPages ++ [t] }
        if ¬ c.detailOk then st2
        else
          let stats := discountStats today c.dates
          let g : Game :=
            ⟨t, price, c.metascore, c.openscore, c.steam_score,
             stats.last_discount, stats.avg_days_between_discounts,
             stats.days_since_last_discount⟩
          { st2 with store := upsert g st2.store, results := st2.results ++ [g] }

/-- One page's card loop. -/
def processPage (today : Int) (st : ScrapeState) (cards : List Card) : ScrapeState :=
  cards.foldl (processCard today) st

/-- The crawl loop (lines 294-494): stop on a failed listing fetch, an
empty card list, or a missing next-page signal; otherwise continue with
the next page. -/
def crawl (today : Int) : List Page → ScrapeState → ScrapeState
  | [], st => st
  | p :: rest, st =>
    if ¬ p.fetchOk then st
    else if p.cards = [] then st
    else
      let st' := processPage today st p.cards
      if p.hasNext then crawl today rest st' else st'

/-- The CSV cache as `get_game_data` sees it: missing file, unreadable
or shapeless file (parse error or no `title` column), or parsed rows. -/
inductive CsvCache where
  | missing : CsvCache
  | invalid : CsvCache
  | rows : List Game → CsvCache
deriving DecidableEq

/-- The rows of a well-formed non-empty CSV cache, else `none`
(the source requires `not df.empty and 'title' in df.columns`). -/
def csvValidRows : CsvCache → Option (List Game)
  | CsvCache.rows gs => if gs = [] then none else some gs
  | _ => none

/-- Outcome of one `get_game_data` call: the returned record set, the
final store contents, the CSV snapshot written (if any), whether the
CSV cache was consulted, whether the web was fetched, and the titles
whose detail pages were accessed. -/
structure AcqResult where
  returned : List Game
  finalStore : List Game
  exportedCsv : Option (List Game)
  csvConsulted : Bool
  webConsulted : Bool
  detailPages : List String
deriving DecidableEq

/-- The acquisition logic of `get_game_data` (lines 224-554).
Without `force_refresh`: a non-empty store is returned as is (lines
229-252); else a well-formed non-empty CSV cache is returned (lines
257-281); else the crawl runs.  With `force_refresh` the crawl runs
directly.  After a crawl that appended nothing and processed nothing
the store is re-read and returned (lines 497-519); a crawl that
processed cards but appended nothing returns the empty set (lines
521-524); otherwise the results are returned and exported to the CSV
snapshot (lines 526-549). -/
def getGameData (today : Int) (forceRefresh : Bool) (store : List Game)
    (csv : CsvCache) (web : List Page) : AcqResult :=
  if forceRefresh = false ∧ store ≠ [] then
    ⟨store, store, none, false, false, []⟩
  else if forceRefresh = false ∧ csvValidRows csv ≠ none then
    ⟨(csvValidRows csv).getD [], store, none, true, false, []⟩
  else
    let st := crawl today web ⟨store, [], [], 0⟩
    if st.results = [] ∧ st.processed = 0 then
      ⟨st.store, st.store, none, forceRefresh = false, true, st.detailPages⟩
    else if st.results = [] then
      ⟨[], st.store, none, forceRefresh = false, true, st.detailPages⟩
    else
      ⟨st.results, st.store, some st.results, forceRefresh = false, true, st.detailPages⟩

/-! ### Recommendation engine (`analyze_and_recommend`, lines 556-589)

A pure pass over the record set: the mean of the present quality
scores, price and score normalization with zero-range guards, the
discount probability with a 365-day default, and the weighted ranking
score (the `fillna(0)` of an absent normalized score is folded into
`normalizedScore`).  The final `df.sort_values('recommendation_score',
ascending=False)` uses the pandas default sort kind, whose documented
contract is a permutation ordered by the key with no stability
guarantee; it is embedded as the relation `sortValuesDescRel`, and
`analyzeAndRecommend` realizes that contract with a concrete sort. -/

/-- Mean of the present scores of one record
(`df[['metascore', 'openscore', 'steam_score']].mean(axis=1)`,
skipping absent values; absent when all three are). -/
def presentScores (r : Game) : List ℚ :=
  [r.metascore.map (fun n => (n : ℚ)), r.openscore.map (fun n => (n : ℚ)),
   r.steam_score].reduceOption

/-- The `avg_score` column. -/
def avgScore (r : Game) : Option ℚ :=
  if presentScores r = [] then none
  else some ((presentScores r).sum / ((presentScores r).length : ℚ))

/-- Maximum of a rational list, `none` on the empty list (a pandas
reduction over an empty series is NaN, and `NaN > 0` is false). -/
def listMaxQ : List ℚ → Option ℚ
  | [] => none
  | x :: t => match listMaxQ t with
    | none => some x
    | some m => some (max x m)

/-- Minimum of a rational list, `none` on the empty list. -/
def listMinQ : List ℚ → Option ℚ
  | [] => none
  | x :: t => match listMinQ t with
    | none => some x
    | some m => some (min x m)

/-- `df['current_price'].max()`. -/
def maxPrice (df : List Game) : Option ℚ :=
  listMaxQ (df.map (fun r => r.current_price))

/-- `df['avg_score'].max()` (NaN entries skipped). -/
def scoreMax (df : List Game) : Option ℚ :=
  listMaxQ ((df.map avgScore).reduceOption)

/-- `df['avg_score'].min()` (NaN entries skipped). -/
def scoreMin (df : List Game) : Option ℚ :=
  listMinQ ((df.map avgScore).reduceOption)

/-- The `normalized_price` column: `1 - price / max` when the set's
maximum price is positive, else `0` (lines 566-570). -/
def normalizedPrice (df : List Game) (r : Game) : ℚ :=
  match maxPrice df with
  | some m => if 0 < m then 1 - r.current_price / m else 0
  | none => 0

/-- The `normalized_score` column: `(avg - min) / range` when the
score range is positive, else `0` (lines 572-576); a record with no
`avg_score` gets NaN there, which the ranking sum's `fillna(0)` turns
into `0`, folded in here. -/
def normalizedScore (df : List Game) (r : Game) : ℚ :=
  match scoreMax df, scoreMin df with
  | some mx, some mn =>
    if 0 < mx - mn then
      match avgScore r with
      | some a => (a - mn) / (mx - mn)
      | none => 0
    else 0
  | _, _ => 0

/-- The `discount_probability` column: `1 / (days + 1)` with absent
days defaulted to 365 (lines 579-580). -/
def discountProbability (r : Game) : ℚ :=
  1 / (((r.days_since_last_discount.getD 365 : Int) : ℚ) + 1)

/-- The `recommendation_score` column (lines 583-587). -/
def recommendationScore (df : List Game) (r : Game) : ℚ :=
  (4 / 10) * normalizedScore df r + (3 / 10) * normalizedPrice df r +
    (3 / 10) * discountProbability r

/-- Each record paired with its computed ranking score. -/
def analyzed (df : List Game) : List (Game × ℚ) :=
  df.map (fun r => (r, recommendationScore df r))

/-- Descending comparison on the computed ranking score. -/
def scoreGE (a b : Game × ℚ) : Prop := b.2 ≤ a.2

instance : DecidableRel scoreGE := fun a b => (inferInstance : Decidable (b.2 ≤ a.2))

instance : IsTotal (Game × ℚ) scoreGE := ⟨fun a b => le_total b.2 a.2⟩

instance : IsTrans (Game × ℚ) scoreGE := ⟨fun _ _ _ h1 h2 => le_trans h2 h1⟩

/-- The documented contract of
`df.sort_values('recommendation_score', ascending=False)` with the
default sort kind: the output is a permutation of the rows, ordered
descending by the key.  The default kind gives no stability promise,
so tie order is unconstrained by this contract. -/
def sortValuesDescRel (l out : List (Game × ℚ)) : Prop :=
  out.Perm l ∧ out.Sorted scoreGE

/-- `analyze_and_recommend` as a relation between the input record set
and an admissible output: the scored rows sorted descending. -/
def engineRel (df : List Game) (out : List (Game × ℚ)) : Prop :=
  sortValuesDescRel (analyzed df) out

/-- Tie stability: rows carrying any one score value keep their input
order. -/
def stableTies (l out : List (Game × ℚ)) : Prop :=
  ∀ q : ℚ, out.filter (fun p => p.2 = q) = l.filter (fun p => p.2 = q)

/-- A concrete realization of the engine: the scored rows sorted
descending with a (stable) insertion sort. -/
def analyzeAndRecommend (df : List Game) : List (Game × ℚ) :=
  List.insertionSort scoreGE (analyzed df)

/-! ### Concrete records, cards and pages used in instantiations -/

/-- A minimal record titled "A". -/
def sampleA : Game := ⟨"A", 0, none, none, none, none, none, none⟩

/-- A minimal record titled "B", identical to `sampleA` except for the
title, hence with the same computed ranking score. -/
def sampleB : Game := ⟨"B", 0, none, none, none, none, none, none⟩

/-- The two-record set with one ranking-score tie. -/
def samplePair : List Game := [sampleA, sampleB]

/-- A record with a price, one quality score and a discount date. -/
def sampleScored : Game := ⟨"C", 10, some 80, none, none, some 70, none, some 10⟩

/-- A listing card for the already-stored title "A". -/
def sampleCardA : Card := ⟨some "A", none, true, true, none, none, none, []⟩

/-- A listing card for a new title "N" with a working detail page. -/
def sampleCardN : Card := ⟨some "N", none, true, true, none, none, none, []⟩

/-- A single listing page carrying the new card, with no next page. -/
def samplePage : Page := ⟨true, [sampleCardN], false⟩

/-! ## Supporting lemmas: price parser -/

theorem mem_cleanPrice {s : String} {c : Char} (h : c ∈ cleanPrice s) :
    c.isDigit = true ∨ c = ',' ∨ c = '.' := by
  simp only [cleanPrice, List.mem_filter] at h
  have h2 := h.2
  simp only [Bool.or_eq_true, decide_eq_true_eq] at h2
  tauto

theorem cleanPrice_all_digits {s : String} (hc : ',' ∉ cleanPrice s)
    (hd : '.' ∉ cleanPrice s) : (cleanPrice s).all Char.isDigit = true := by
  rw [List.all_eq_true]
  intro c hmem
  rcases mem_cleanPrice hmem with h | h | h
  · simpa using h
  · exact absurd (h ▸ hmem) hc
  · exact absurd (h ▸ hmem) hd

theorem takeWhile_middle {p : Char → Bool} {a : List Char} {x : Char} {b : List Char}
    (h : ∀ c ∈ a, p c = true) (hx : p x = false) :
    (a ++ x :: b).takeWhile p = a ∧ (a ++ x :: b).dropWhile p = x :: b := by
  induction a with
  | nil => simp [List.takeWhile_cons, List.dropWhile_cons, hx]
  | cons c t ih =>
    have hc : p c = true := h c (by simp)
    have iht := ih (fun d hd => h d (by simp [hd]))
    simp [List.takeWhile_cons, List.dropWhile_cons, hc, iht.1, iht.2]

theorem takeWhile_all {p : Char → Bool} {a : List Char} (h : ∀ c ∈ a, p c = true) :
    a.takeWhile p = a ∧ a.dropWhile p = [] := by
  induction a with
  | nil => simp
  | cons c t ih =>
    have hc : p c = true := h c (by simp)
    have iht := ih (fun d hd => h d (by simp [hd]))
    simp [List.takeWhile_cons, List.dropWhile_cons, hc, iht.1, iht.2]

theorem digitsVal_foldl (l : List Char) (n : Nat) :
    l.foldl (fun n c => 10 * n + digitVal c) n = n * 10 ^ l.length + digitsVal l := by
  induction l generalizing n with
  | nil => simp [digitsVal]
  | cons c t ih =>
    simp only [List.foldl_cons, List.length_cons, digitsVal]
    rw [ih (10 * n + digitVal c), ih (10 * 0 + digitVal c)]
    ring

theorem digitsVal_append (a b : List Char) :
    digitsVal (a ++ b) = digitsVal a * 10 ^ b.length + digitsVal b := by
  simp only [digitsVal, List.foldl_append]
  rw [digitsVal_foldl b (List.foldl (fun n c => 10 * n + digitVal c) 0 a)]
  rfl

theorem digit_ne_dot {c : Char} (h : c.isDigit = true) : c ≠ '.' := by
  intro hEq
  subst hEq
  simp [Char.isDigit] at h

theorem pyFloatParts_digits_dot {a b : List Char}
    (ha : ∀ c ∈ a, c.isDigit = true) (hb : ∀ c ∈ b, c.isDigit = true)
    (hne : a ≠ [] ∨ b ≠ []) :
    pyFloatParts (a ++ '.' :: b) = some (digitsVal a, digitsVal b, b.length) := by
  have hOk : pyFloatOk (a ++ '.' :: b) = true := by
    simp only [pyFloatOk, Bool.and_eq_true, List.all_eq_true, List.any_eq_true,
      decide_eq_true_eq]
    refine ⟨⟨?_, ?_⟩, ?_⟩
    · intro c hmem
      rcases List.mem_append.1 hmem with h | h
      · simp [ha c h]
      · rcases List.mem_cons.1 h with h | h
        · simp [h]
        · simp [hb c h]
    · have : (a ++ '.' :: b).filter (fun c => decide (c = '.')) = ['.'] := by
        rw [List.filter_append]
        have h1 : a.filter (fun c => decide (c = '.')) = [] := by
          rw [List.filter_eq_nil_iff]
          intro c hc
          simp [digit_ne_dot (ha c hc)]
        have h2 : ('.' :: b).filter (fun c => decide (c = '.')) = ['.'] := by
          rw [List.filter_cons]
          simp only [decide_True, if_true]
          have : b.filter (fun c => decide (c = '.')) = [] := by
            rw [List.filter_eq_nil_iff]
            intro c hc
            simp [digit_ne_dot (hb c hc)]
          simp [this]
        rw [h1, h2, List.nil_append]
      rw [this]
      simp
    · rcases hne with h | h
      · obtain ⟨c, hc⟩ := List.exists_mem_of_ne_nil a h
        exact ⟨c, by simp [hc], ha c hc⟩
      · obtain ⟨c, hc⟩ := List.exists_mem_of_ne_nil b h
        exact ⟨c, by simp [hc], hb c hc⟩
  have hmid := takeWhile_middle (p := fun c => decide (c ≠ '.'))
    (a := a) (x := '.') (b := b)
    (fun c hc => by simp [digit_ne_dot (ha c hc)]) (by simp)
  simp only [pyFloatParts, hOk, if_true, hmid.1, hmid.2, List.drop_succ_cons,
    List.drop_zero]

theorem pyFloatParts_digits {a : List Char}
    (ha : ∀ c ∈ a, c.isDigit = true) (hne : a ≠ []) :
    pyFloatParts a = some (digitsVal a, 0, 0) := by
  have hOk : pyFloatOk a = true := by
    simp only [pyFloatOk, Bool.and_eq_true, List.all_eq_true, List.any_eq_true,
      decide_eq_true_eq]
    refine ⟨⟨?_, ?_⟩, ?_⟩
    · intro c hmem
      simp [ha c hmem]
    · have : a.filter (fun c => decide (c = '.')) = [] := by
        rw [List.filter_eq_nil_iff]
        intro c hc
        simp [digit_ne_dot (ha c hc)]
      simp [this]
    · obtain ⟨c, hc⟩ := List.exists_mem_of_ne_nil a hne
      exact ⟨c, hc, ha c hc⟩
  have hall := takeWhile_all (p := fun c => decide (c ≠ '.')) (a := a)
    (fun c hc => by simp [digit_ne_dot (ha c hc)])
  simp only [decide_not] at hall
  simp [pyFloatParts, hOk, hall.1, hall.2, digitsVal]

theorem priceParseParts_usFormat :
    priceParseParts "1,234.56" = (some (1, 23456, 5), false) := by decide

theorem priceParseParts_euFormat :
    priceParseParts "1.234,56" = (some (1234, 56, 2), false) := by decide

theorem priceParseParts_dollarFormat :
    priceParseParts "$19.99" = (some (19, 99, 2), false) := by decide

/-! ## Claim theorems: price parsing (C1, C6) -/

/-- C1, counterexample: the claim says "1,234.56" parses to 1234.56,
the same numeric value as "1.234,56".  In the source the comma branch
wins for any comma-bearing text, so "1,234.56" loses its dot as a
presumed thousands separator and parses to 1.23456 — neither 1234.56
nor the value of "1.234,56". -/
theorem c1_dot_decimal_counterexample :
    (priceParse "1,234.56").1 ≠ 123456 / 100 ∧
    (priceParse "1,234.56").1 ≠ (priceParse "1.234,56").1 := by
  constructor
  · simp only [priceParse, priceParseParts_usFormat, Option.elim, partsVal]
    norm_num
  · simp only [priceParse, priceParseParts_usFormat, priceParseParts_euFormat,
      Option.elim, partsVal]
    norm_num

/-- C1, amended: comma presence always wins.  "1.234,56" (comma as
decimal separator) parses to 1234.56 and "$19.99" to 19.99, but the
dot-decimal text "1,234.56" parses to 1.23456 = 3858/3125: the two
conventions of the same displayed amount do not yield the same
number. -/
theorem c1_dot_decimal_amended :
    (priceParse "$19.99").1 = 1999 / 100 ∧
    (priceParse "1.234,56").1 = 123456 / 100 ∧
    (priceParse "1,234.56").1 = 3858 / 3125 := by
  refine ⟨?_, ?_, ?_⟩
  · simp only [priceParse, priceParseParts_dollarFormat, Option.elim, partsVal]
    norm_num
  · simp only [priceParse, priceParseParts_euFormat, Option.elim, partsVal]
    norm_num
  · simp only [priceParse, priceParseParts_usFormat, Option.elim, partsVal]
    norm_num

/-- C6: when the cleaned price text contains neither comma nor dot, it
is a bare digit run (the cleaning step leaves nothing else): with two
or more digits the value is the digit run divided by 100 (last two
digits are cents), a single digit is the whole-unit value, and an
empty remainder yields 0 (via the warning fallback, the only residual
shape without comma or dot); no branch raises. -/
theorem c6_bare_digit_rule (s : String) (hc : ',' ∉ cleanPrice s)
    (hd : '.' ∉ cleanPrice s) :
    (2 ≤ (cleanPrice s).length →
      priceParse s = ((digitsVal (cleanPrice s) : ℚ) / 100, false)) ∧
    ((cleanPrice s).length = 1 →
      priceParse s = ((digitsVal (cleanPrice s) : ℚ), false)) ∧
    (cleanPrice s = [] → priceParse s = (0, true)) := by
  have hall : ∀ c ∈ cleanPrice s, c.isDigit = true :=
    List.all_eq_true.1 (cleanPrice_all_digits hc hd)
  refine ⟨?_, ?_, ?_⟩
  · intro hlen
    have htake : ∀ x ∈ (cleanPrice s).take ((cleanPrice s).length - 2), x.isDigit = true :=
      fun x hx => hall x (List.take_subset _ _ hx)
    have hdrop : ∀ x ∈ (cleanPrice s).drop ((cleanPrice s).length - 2), x.isDigit = true :=
      fun x hx => hall x (List.drop_subset _ _ hx)
    have hdroplen : ((cleanPrice s).drop ((cleanPrice s).length - 2)).length = 2 := by
      rw [List.length_drop]; omega
    have hdropne : (cleanPrice s).drop ((cleanPrice s).length - 2) ≠ [] := by
      intro h; rw [h] at hdroplen; simp at hdroplen
    have hparts := pyFloatParts_digits_dot htake hdrop (Or.inr hdropne)
    have hne : cleanPrice s ≠ [] := by
      intro h; rw [h] at hlen; simp at hlen
    have hPP : priceParseParts s =
        (some (digitsVal ((cleanPrice s).take ((cleanPrice s).length - 2)),
               digitsVal ((cleanPrice s).drop ((cleanPrice s).length - 2)),
               ((cleanPrice s).drop ((cleanPrice s).length - 2)).length), false) := by
      simp only [priceParseParts]
      rw [if_neg hc, if_neg hd, if_pos, if_pos hlen, hparts]
      simp [List.isEmpty_iff, hne, cleanPrice_all_digits hc hd]
    have hval : digitsVal (cleanPrice s) =
        digitsVal ((cleanPrice s).take ((cleanPrice s).length - 2)) * 100 +
          digitsVal ((cleanPrice s).drop ((cleanPrice s).length - 2)) := by
      conv_lhs => rw [← List.take_append_drop ((cleanPrice s).length - 2) (cleanPrice s)]
      rw [digitsVal_append, hdroplen]
      norm_num
    simp only [priceParse, hPP, Option.elim, partsVal, hdroplen, hval]
    refine Prod.ext ?_ rfl
    push_cast
    field_simp
    ring
  · intro hlen
    have hne : cleanPrice s ≠ [] := by
      intro h; rw [h] at hlen; simp at hlen
    have hparts := pyFloatParts_digits hall hne
    have hPP : priceParseParts s = (some (digitsVal (cleanPrice s), 0, 0), false) := by
      simp only [priceParseParts]
      rw [if_neg hc, if_neg hd, if_pos]
      · rw [if_neg (by omega), if_pos hlen, hparts]
      · simp [List.isEmpty_iff, hne, cleanPrice_all_digits hc hd]
    simp [priceParse, hPP, partsVal]
  · intro h0
    have hPP : priceParseParts s = (none, true) := by
      simp only [priceParseParts]
      rw [if_neg hc, if_neg hd]
      simp [h0]
    simp [priceParse, hPP]

/-- C6, witness: the bare digit run "1135000" hits the cents rule. -/
theorem c6_bare_digit_rule_witness :
    priceParse "1135000" = ((digitsVal (cleanPrice "1135000") : ℚ) / 100, false) :=
  (c6_bare_digit_rule "1135000" (by decide) (by decide)).1 (by decide)

/-! ## Supporting lemmas: discount statistics -/

theorem sortDesc_perm (l : List Int) : (sortDesc l).Perm l :=
  List.perm_insertionSort _ l

theorem sortDesc_sorted (l : List Int) : (sortDesc l).Sorted (· ≥ ·) :=
  List.sorted_insertionSort _ l

theorem consecGaps_length : ∀ l : List Int, (consecGaps l).length = l.length - 1
  | [] => rfl
  | [_] => rfl
  | a :: b :: t => by
    simp only [consecGaps, List.length_cons, consecGaps_length (b :: t)]
    simp

theorem consecGaps_nonneg : ∀ l : List Int, l.Sorted (· ≥ ·) →
    ∀ g ∈ consecGaps l, 0 ≤ g
  | [], _, g, hg => by simp [consecGaps] at hg
  | [_], _, g, hg => by simp [consecGaps] at hg
  | a :: b :: t, hs, g, hg => by
    rw [List.sorted_cons] at hs
    rcases List.mem_cons.1 hg with h | h
    · have hab : a ≥ b := hs.1 b (by simp)
      omega
    · exact consecGaps_nonneg (b :: t) hs.2 g h

theorem sorted_desc_min : ∀ (rest : List Int) (d : Int),
    (d :: rest).Sorted (· ≥ ·) →
    ∃ mn, mn ∈ d :: rest ∧ (∀ x ∈ d :: rest, mn ≤ x) ∧
      (consecGaps (d :: rest)).sum = d - mn := by
  intro rest
  induction rest with
  | nil =>
    intro d _
    exact ⟨d, by simp, by simp, by simp [consecGaps]⟩
  | cons b t ih =>
    intro d hs
    rw [List.sorted_cons] at hs
    obtain ⟨mn, hmem, hbound, hsum⟩ := ih b hs.2
    have hdb : b ≤ d := hs.1 b (by simp)
    refine ⟨mn, by simp [List.mem_cons.1 hmem, or_assoc], ?_, ?_⟩
    · intro x hx
      rcases List.mem_cons.1 hx with h | h
      · have := hbound b (by simp)
        omega
      · exact hbound x h
    · show ((d - b) :: consecGaps (b :: t)).sum = d - mn
      rw [List.sum_cons, hsum]
      ring

theorem discountStats_cons (today : Int) (D : List Int) (d : Int) (rest : List Int)
    (h : sortDesc D = d :: rest) :
    (discountStats today D).last_discount = some d ∧
    (discountStats today D).days_since_last_discount = some (today - d) := by
  simp only [discountStats, h]
  by_cases hrest : rest = []
  · simp [hrest]
  · rw [if_neg hrest]
    by_cases hdiffs : (consecGaps (d :: rest)).filter (fun g => decide (0 ≤ g)) = []
    · simp [hdiffs]
    · simp [hdiffs]

theorem discountStats_two_le (today : Int) (D : List Int) (h : 2 ≤ D.length) :
    ∃ d rest, sortDesc D = d :: rest ∧ rest ≠ [] ∧
      (discountStats today D).avg_days_between_discounts =
        some (((consecGaps (d :: rest)).sum : ℚ) / ((consecGaps (d :: rest)).length : ℚ)) := by
  have hlen : (sortDesc D).length = D.length := (sortDesc_perm D).length_eq
  match hsd : sortDesc D with
  | [] => rw [hsd] at hlen; simp at hlen; omega
  | [d] => rw [hsd] at hlen; simp at hlen; omega
  | d :: b :: t =>
    have hsorted : (d :: b :: t).Sorted (· ≥ ·) := hsd ▸ sortDesc_sorted D
    have hfilter : (consecGaps (d :: b :: t)).filter (fun g => decide (0 ≤ g)) =
        consecGaps (d :: b :: t) := by
      rw [List.filter_eq_self]
      intro g hg
      simpa using consecGaps_nonneg _ hsorted g hg
    have hne : consecGaps (d :: b :: t) ≠ [] := by
      simp [consecGaps]
    refine ⟨d, b :: t, rfl, by simp, ?_⟩
    simp only [discountStats, hsd, hfilter]
    rw [if_neg (by simp : ¬ (b :: t : List Int) = []), if_neg hne]

/-! ## Claim theorems: discount statistics (C3, C10) -/

/-- C3: for an empty date list all three derived fields are absent;
otherwise the last discount is the maximum date and the days since are
today minus it; with two or more dates the average gap equals
(max - min) / (n - 1), which is exactly the arithmetic mean of the
non-negative consecutive gaps of the descending sort, since those gaps
telescope to max - min and are all retained by the filter. -/
theorem c3_discount_statistics (today : Int) (D : List Int) :
    (D = [] → discountStats today D = ⟨none, none, none⟩) ∧
    (D ≠ [] → ∃ mx, mx ∈ D ∧ (∀ x ∈ D, x ≤ mx) ∧
      (discountStats today D).last_discount = some mx ∧
      (discountStats today D).days_since_last_discount = some (today - mx) ∧
      (2 ≤ D.length → ∃ mn, mn ∈ D ∧ (∀ x ∈ D, mn ≤ x) ∧
        (discountStats today D).avg_days_between_discounts =
          some (((mx : ℚ) - (mn : ℚ)) / ((D.length : ℚ) - 1)))) := by
  constructor
  · intro h
    subst h
    rfl
  · intro hne
    have hlen : (sortDesc D).length = D.length := (sortDesc_perm D).length_eq
    have hsne : sortDesc D ≠ [] := by
      intro h
      rw [h] at hlen
      exact hne (List.length_eq_zero.1 hlen.symm)
    obtain ⟨d, rest, hsd⟩ := List.exists_cons_of_ne_nil hsne
    have hsorted : (d :: rest).Sorted (· ≥ ·) := hsd ▸ sortDesc_sorted D
    have hdD : d ∈ D := (sortDesc_perm D).subset (hsd ▸ List.mem_cons_self d rest)
    have hmax : ∀ x ∈ D, x ≤ d := by
      intro x hx
      have hx2 : x ∈ d :: rest := hsd ▸ (sortDesc_perm D).symm.subset hx
      rcases List.mem_cons.1 hx2 with h | h
      · omega
      · exact (List.sorted_cons.1 hsorted).1 x h
    have hfields := discountStats_cons today D d rest hsd
    refine ⟨d, hdD, hmax, hfields.1, hfields.2, ?_⟩
    intro h2
    obtain ⟨d', rest', hsd', hrne', havg⟩ := discountStats_two_le today D h2
    rw [hsd] at hsd'
    injection hsd' with hd hrest
    subst hd
    subst hrest
    obtain ⟨mn, hmnmem, hmnbound, hsum⟩ := sorted_desc_min rest d hsorted
    have hmnD : mn ∈ D := (sortDesc_perm D).subset (hsd ▸ hmnmem)
    have hminD : ∀ x ∈ D, mn ≤ x := by
      intro x hx
      exact hmnbound x (hsd ▸ (sortDesc_perm D).symm.subset hx)
    refine ⟨mn, hmnD, hminD, ?_⟩
    rw [havg, hsum, consecGaps_length]
    have hlen2 : (d :: rest).length = D.length := hsd ▸ hlen
    rw [hlen2]
    have h1 : (1 : ℕ) ≤ D.length := by omega
    rw [Nat.cast_sub h1]
    push_cast
    ring_nf

/-- C3, witness: the spec example dates (day ordinals of 2024-01-10,
2024-02-09 and 2024-03-10 within 2024: 10, 40 and 70) with the claim
instantiated: the last discount is the maximum, and the gap average is
(70 - 10) / 2 = 30. -/
theorem c3_discount_statistics_witness :
    ∃ mx, mx ∈ ([10, 40, 70] : List Int) ∧ (∀ x ∈ ([10, 40, 70] : List Int), x ≤ mx) ∧
      (discountStats 100 [10, 40, 70]).last_discount = some mx ∧
      (discountStats 100 [10, 40, 70]).days_since_last_discount = some (100 - mx) ∧
      (2 ≤ ([10, 40, 70] : List Int).length → ∃ mn, mn ∈ ([10, 40, 70] : List Int) ∧
        (∀ x ∈ ([10, 40, 70] : List Int), mn ≤ x) ∧
        (discountStats 100 [10, 40, 70]).avg_days_between_discounts =
          some (((mx : ℚ) - (mn : ℚ)) / ((([10, 40, 70] : List Int).length : ℚ) - 1))) :=
  (c3_discount_statistics 100 [10, 40, 70]).2 (by decide)

/-- Concrete check of the spec example: last discount day 70, thirty
days before day 100, and a 30-day average gap. -/
example : discountStats 100 [10, 40, 70] = ⟨some 70, some 30, some 30⟩ := by
  have h : sortDesc [10, 40, 70] = [70, 40, 10] := by decide
  simp [discountStats, h, consecGaps]
  norm_num

/-- C10: with at least two parsed dates the average-gap field is always
present: the dates are sorted descending before gaps are taken, so
every consecutive gap is non-negative and the filtered gap list is
never empty. -/
theorem c10_avg_gap_present (today : Int) (D : List Int) (h : 2 ≤ D.length) :
    ((discountStats today D).avg_days_between_discounts).isSome = true := by
  obtain ⟨d, rest, _, _, havg⟩ := discountStats_two_le today D h
  rw [havg]
  rfl

/-- C10, witness: two same-day duplicates also keep the field present
(the zero gap is retained). -/
theorem c10_avg_gap_present_witness :
    ((discountStats 100 [40, 40]).avg_days_between_discounts).isSome = true :=
  c10_avg_gap_present 100 [40, 40] (by decide)

/-! ## Supporting lemmas: cache filenames -/

theorem sanitizeUrl_eq_map (l : List Char) :
    sanitizeUrl l = l.map (fun c => if c = '/' then '_' else if c = ':' then '_' else c) := by
  simp only [sanitizeUrl, List.map_map]
  congr 1
  funext c
  by_cases h1 : c = '/'
  · simp [h1, Function.comp]
  · by_cases h2 : c = ':'
    · simp [h2, Function.comp]
    · simp [h1, h2, Function.comp]

theorem sanitizeUrl_inj : ∀ (u v : List Char), ':' ∉ u → '_' ∉ u → ':' ∉ v → '_' ∉ v →
    sanitizeUrl u = sanitizeUrl v → u = v := by
  intro u
  induction u with
  | nil =>
    intro v _ _ _ _ h
    rw [sanitizeUrl_eq_map, sanitizeUrl_eq_map] at h
    cases v with
    | nil => rfl
    | cons b t => simp at h
  | cons a s ih =>
    intro v hcu hdu hcv hdv h
    cases v with
    | nil => rw [sanitizeUrl_eq_map, sanitizeUrl_eq_map] at h; simp at h
    | cons b t =>
      rw [sanitizeUrl_eq_map, sanitizeUrl_eq_map] at h
      simp only [List.map_cons, List.cons.injEq] at h
      have htail : s = t := by
        have := ih t (fun hx => hcu (by simp [hx])) (fun hx => hdu (by simp [hx]))
          (fun hx => hcv (by simp [hx])) (fun hx => hdv (by simp [hx]))
        rw [sanitizeUrl_eq_map, sanitizeUrl_eq_map] at this
        exact this h.2
      have hane : a ≠ ':' := fun hx => hcu (by simp [hx])
      have hane2 : a ≠ '_' := fun hx => hdu (by simp [hx])
      have hbne : b ≠ ':' := fun hx => hcv (by simp [hx])
      have hbne2 : b ≠ '_' := fun hx => hdv (by simp [hx])
      have hhead : a = b := by
        by_cases ha : a = '/'
        · by_cases hb : b = '/'
          · rw [ha, hb]
          · rw [ha] at h
            simp [hb, hbne] at h
            exact absurd h.1.symm hbne2
        · by_cases hb : b = '/'
          · rw [hb] at h
            simp [ha, hane] at h
            exact absurd h.1 hane2
          · simpa [ha, hb, hane, hbne] using h.1
      rw [hhead, htail]

/-! ## Claim theorems: cache filenames (C9) and request headers (C8) -/

/-- C9, counterexample: the derivation is not injective.  The URLs
"a/b" and "a:b" are distinct but both sanitize to "a_b", so they share
one cache file in the general namespace and likewise in the SteamDB
namespace. -/
theorem c9_cache_filename_counterexample :
    htmlCacheFilename ("a/b").data = htmlCacheFilename ("a:b").data ∧
    ("a/b").data ≠ ("a:b").data ∧
    steamdbCacheFilename ("a/b").data = steamdbCacheFilename ("a:b").data := by
  decide

/-- C9, amended: the derivation is a deterministic function of the URL
(it is a function), but injective only away from the collision sources:
on URLs containing neither ':' nor '_', equal cache filenames force
equal URLs, in each namespace. -/
theorem c9_cache_filename_amended (u v : List Char)
    (hu1 : ':' ∉ u) (hu2 : '_' ∉ u) (hv1 : ':' ∉ v) (hv2 : '_' ∉ v) :
    (htmlCacheFilename u = htmlCacheFilename v → u = v) ∧
    (steamdbCacheFilename u = steamdbCacheFilename v → u = v) := by
  constructor
  · intro h
    rw [htmlCacheFilename, htmlCacheFilename, List.append_assoc, List.append_assoc] at h
    have h2 : sanitizeUrl u ++ (".html").data = sanitizeUrl v ++ (".html").data :=
      List.append_cancel_left h
    exact sanitizeUrl_inj u v hu1 hu2 hv1 hv2 (List.append_cancel_right h2)
  · intro h
    rw [steamdbCacheFilename, steamdbCacheFilename, List.append_assoc,
      List.append_assoc] at h
    have h2 : sanitizeUrl u ++ (".html").data = sanitizeUrl v ++ (".html").data :=
      List.append_cancel_left h
    exact sanitizeUrl_inj u v hu1 hu2 hv1 hv2 (List.append_cancel_right h2)

/-- C9, witness: a colon-free, underscore-free URL instantiating the
amended injectivity. -/
theorem c9_cache_filename_amended_witness :
    ("www.dekudeals.com/wishlist").data = ("www.dekudeals.com/wishlist").data :=
  (c9_cache_filename_amended ("www.dekudeals.com/wishlist").data
    ("www.dekudeals.com/wishlist").data
    (by decide) (by decide) (by decide) (by decide)).1 rfl

/-- C8, counterexample: not every GET of the pipeline carries the
browser identity headers.  The external-rating search and detail
fetches (`requests.get` at lines 142 and 178) pass no headers
argument. -/
theorem c8_browser_headers_counterexample :
    ¬ ∀ g ∈ pipelineGets "https://steamdb.info/search/?a=app&q=Hades",
        g.headers = browserHeaders := by
  decide

/-- C8, amended: the listing-page and detail-page GETs carry the
browser identity header set; the two external-rating GETs carry no
explicit headers at all. -/
theorem c8_browser_headers_amended (u : String) :
    (listingPageGet u).headers = browserHeaders ∧
    (detailPageGet u).headers = browserHeaders ∧
    (steamdbSearchGet u).headers = [] ∧
    (steamdbAppGet u).headers = [] :=
  ⟨rfl, rfl, rfl, rfl⟩

/-! ## Supporting lemmas: recommendation engine -/

theorem listMaxQ_const : ∀ (l : List ℚ) (c : ℚ), (∀ x ∈ l, x = c) → l ≠ [] →
    listMaxQ l = some c
  | [], _, _, hne => absurd rfl hne
  | x :: t, c, hall, _ => by
    have hx : x = c := hall x (by simp)
    cases t with
    | nil => simp [listMaxQ, hx]
    | cons y u =>
      have ht := listMaxQ_const (y :: u) c (fun z hz => hall z (by simp [hz])) (by simp)
      have hstep : listMaxQ (x :: y :: u) =
          match listMaxQ (y :: u) with
          | none => some x
          | some m => some (max x m) := rfl
      rw [hstep, ht, hx]
      simp

theorem sampleScores_eq :
    recommendationScore samplePair sampleA = 1 / 1220 ∧
    recommendationScore samplePair sampleB = 1 / 1220 := by
  constructor <;>
    norm_num [recommendationScore, normalizedScore, normalizedPrice,
      discountProbability, maxPrice, scoreMax, scoreMin, avgScore, presentScores,
      listMaxQ, listMinQ, samplePair, sampleA, sampleB, List.reduceOption,
      List.filterMap_cons, List.filterMap_nil]

theorem analyzed_samplePair :
    analyzed samplePair =
      [(sampleA, recommendationScore samplePair sampleA),
       (sampleB, recommendationScore samplePair sampleB)] := by
  simp only [analyzed]
  rfl

/-! ## Claim theorems: recommendation engine (C4, C7) -/

/-- C4, counterexample: the engine's sort is the pandas default kind,
whose contract guarantees only a permutation in descending key order.
For the two-record set with tied ranking scores, the swapped output is
an admissible engine result, and it does not retain the input's
relative order, so the claimed stability does not hold of the code's
sort. -/
theorem c4_stable_sort_counterexample :
    engineRel samplePair
      [(sampleB, recommendationScore samplePair sampleB),
       (sampleA, recommendationScore samplePair sampleA)] ∧
    ¬ stableTies (analyzed samplePair)
      [(sampleB, recommendationScore samplePair sampleB),
       (sampleA, recommendationScore samplePair sampleA)] := by
  have hA := sampleScores_eq.1
  have hB := sampleScores_eq.2
  refine ⟨⟨?_, ?_⟩, ?_⟩
  · rw [analyzed_samplePair]
    exact List.Perm.swap _ _ _
  · rw [List.sorted_cons]
    refine ⟨?_, List.sorted_singleton _⟩
    intro b hb
    simp only [List.mem_singleton] at hb
    rw [hb]
    show recommendationScore samplePair sampleA ≤ recommendationScore samplePair sampleB
    rw [hA, hB]
  · intro hstable
    have h1 := hstable (1 / 1220)
    rw [analyzed_samplePair] at h1
    simp only [List.filter, hA, hB] at h1
    norm_num at h1
    have : sampleB = sampleA := h1.1
    simp [sampleA, sampleB] at this

/-- C4, amended: the engine returns the scored records as a permutation
of the input ordered descending by `recommendation_score`; the relative
order of equal-score records is not guaranteed. -/
theorem c4_stable_sort_amended (df : List Game) :
    engineRel df (analyzeAndRecommend df) :=
  ⟨List.perm_insertionSort scoreGE (analyzed df),
   List.sorted_insertionSort scoreGE (analyzed df)⟩

/-- C7: a record set whose prices are all equal gets
`normalized_price = 0` on every record (whether the common price is
positive, in which case `1 - p/p = 0`, or not, in which case the guard
fires), and a record set whose score range is zero gets
`normalized_score = 0` on every record; neither branch forms a
division by zero. -/
theorem c7_normalization_guards (df : List Game) :
    (∀ c, (∀ x ∈ df, x.current_price = c) → ∀ r ∈ df, normalizedPrice df r = 0) ∧
    (∀ mx mn, scoreMax df = some mx → scoreMin df = some mn → mx - mn = 0 →
      ∀ r ∈ df, normalizedScore df r = 0) := by
  constructor
  · intro c hall r hr
    have hmax : maxPrice df = some c := by
      apply listMaxQ_const
      · intro x hx
        obtain ⟨g, hg, hgx⟩ := List.mem_map.1 hx
        rw [← hgx]
        exact hall g hg
      · simp only [ne_eq, List.map_eq_nil_iff]
        intro h
        rw [h] at hr
        exact absurd hr (List.not_mem_nil r)
    rw [normalizedPrice, hmax]
    change (if 0 < c then 1 - r.current_price / c else 0) = 0
    by_cases hpos : 0 < c
    · rw [if_pos hpos, hall r hr, div_self (ne_of_gt hpos)]
      ring
    · rw [if_neg hpos]
  · intro mx mn hmx hmn hzero r _
    simp only [normalizedScore, hmx, hmn, hzero]
    norm_num

/-- C7, witness: a one-record set with price 10 and a single score. -/
theorem c7_normalization_guards_witness :
    normalizedPrice [sampleScored] sampleScored = 0 ∧
    normalizedScore [sampleScored] sampleScored = 0 := by
  constructor
  · exact (c7_normalization_guards [sampleScored]).1 10 (by decide) sampleScored
      (by decide)
  · refine (c7_normalization_guards [sampleScored]).2 80 80 ?_ ?_ (by norm_num)
      sampleScored (by decide)
    · norm_num [scoreMax, avgScore, presentScores, sampleScored, listMaxQ,
        List.reduceOption, List.filterMap_cons, List.filterMap_nil]
    · norm_num [scoreMin, avgScore, presentScores, sampleScored, listMinQ,
        List.reduceOption, List.filterMap_cons, List.filterMap_nil]

/-! ## Supporting lemmas: acquisition pipeline -/

theorem existsInStore_false_iff (t : String) (l : List Game) :
    existsInStore t l = false ↔ ∀ g ∈ l, g.title ≠ t := by
  simp [existsInStore]

theorem upsert_of_not_exists (g : Game) : ∀ l : List Game,
    existsInStore g.title l = false → upsert g l = l ++ [g]
  | [], _ => rfl
  | h :: t, hex => by
    rw [existsInStore_false_iff] at hex
    have h1 : h.title ≠ g.title := hex h (by simp)
    have h2 : existsInStore g.title t = false := by
      rw [existsInStore_false_iff]
      exact fun x hx => hex x (by simp [hx])
    simp only [upsert, if_neg h1, upsert_of_not_exists g t h2, List.cons_append]

theorem processCard_skip (today : Int) (st : ScrapeState) (c : Card) (t : String)
    (ht : c.title = some t) (hex : existsInStore t st.store = true) :
    processCard today st c = st := by
  simp only [processCard, ht, hex, if_true]

theorem processCard_preserve (today : Int) (st : ScrapeState) (c : Card) (t : String)
    (hex : existsInStore t st.store = true) :
    existsInStore t (processCard today st c).store = true ∧
    (t ∈ (processCard today st c).detailPages → t ∈ st.detailPages) := by
  cases hct : c.title with
  | none =>
    simp only [processCard, hct]
    exact ⟨hex, fun h => h⟩
  | some u =>
    by_cases hex2 : existsInStore u st.store = true
    · rw [processCard_skip today st c u hct hex2]
      exact ⟨hex, fun h => h⟩
    · have hex2f : existsInStore u st.store = false := by
        simpa using hex2
      have htne : t ≠ u := fun h => hex2 (h ▸ hex)
      simp only [processCard, hct, hex2f, Bool.false_eq_true, if_false]
      cases hdu : c.hasDetailUrl with
      | false =>
        simp only [Bool.false_eq_true, not_false_eq_true, if_true]
        exact ⟨hex, fun h => h⟩
      | true =>
        rw [if_neg (by simp)]
        cases hdo : c.detailOk with
        | false =>
          rw [if_pos (by simp)]
          refine ⟨hex, ?_⟩
          intro h
          rcases List.mem_append.1 h with h | h
          · exact h
          · simp only [List.mem_singleton] at h
            exact absurd h htne
        | true =>
          rw [if_neg (by simp)]
          constructor
          · show existsInStore t (upsert _ st.store) = true
            rw [upsert_of_not_exists _ st.store hex2f]
            simp only [existsInStore, List.any_append, Bool.or_eq_true]
            exact Or.inl hex
          · intro h
            rcases List.mem_append.1 h with h | h
            · exact h
            · simp only [List.mem_singleton] at h
              exact absurd h htne

theorem processPage_preserve (today : Int) (cards : List Card) (st : ScrapeState)
    (t : String) (hex : existsInStore t st.store = true) :
    existsInStore t (processPage today st cards).store = true ∧
    (t ∈ (processPage today st cards).detailPages → t ∈ st.detailPages) := by
  induction cards generalizing st with
  | nil => exact ⟨hex, fun h => h⟩
  | cons c cs ih =>
    have h1 := processCard_preserve today st c t hex
    have h2 := ih (processCard today st c) h1.1
    exact ⟨h2.1, fun h => h1.2 (h2.2 h)⟩

theorem crawl_preserve (today : Int) (pages : List Page) (st : ScrapeState)
    (t : String) (hex : existsInStore t st.store = true) :
    existsInStore t (crawl today pages st).store = true ∧
    (t ∈ (crawl today pages st).detailPages → t ∈ st.detailPages) := by
  induction pages generalizing st with
  | nil => exact ⟨hex, fun h => h⟩
  | cons p rest ih =>
    simp only [crawl]
    by_cases hf : p.fetchOk = true
    · rw [if_neg (by simp [hf])]
      by_cases hc : p.cards = []
      · rw [if_pos hc]
        exact ⟨hex, fun h => h⟩
      · rw [if_neg hc]
        have h1 := processPage_preserve today p.cards st t hex
        by_cases hn : p.hasNext = true
        · rw [if_pos hn]
          have h2 := ih (processPage today st p.cards) h1.1
          exact ⟨h2.1, fun h => h1.2 (h2.2 h)⟩
        · rw [if_neg hn]
          exact h1
    · rw [if_pos (by simpa using hf)]
      exact ⟨hex, fun h => h⟩

theorem processCard_results_sub (today : Int) (st : ScrapeState) (c : Card)
    (hsub : ∀ g ∈ st.results, g ∈ st.store) :
    ∀ g ∈ (processCard today st c).results, g ∈ (processCard today st c).store := by
  cases hct : c.title with
  | none => simpa only [processCard, hct] using hsub
  | some u =>
    by_cases hex2 : existsInStore u st.store = true
    · rw [processCard_skip today st c u hct hex2]
      exact hsub
    · have hex2f : existsInStore u st.store = false := by simpa using hex2
      simp only [processCard, hct, hex2f, Bool.false_eq_true, if_false]
      cases hdu : c.hasDetailUrl with
      | false =>
        simp only [Bool.false_eq_true, not_false_eq_true, if_true]
        exact hsub
      | true =>
        rw [if_neg (by simp)]
        cases hdo : c.detailOk with
        | false =>
          rw [if_pos (by simp)]
          exact hsub
        | true =>
          rw [if_neg (by simp)]
          intro g hg
          rw [upsert_of_not_exists _ st.store hex2f]
          rcases List.mem_append.1 hg with h | h
          · exact List.mem_append_left _ (hsub g h)
          · exact List.mem_append_right _ h

theorem processPage_results_sub (today : Int) (cards : List Card) (st : ScrapeState)
    (hsub : ∀ g ∈ st.results, g ∈ st.store) :
    ∀ g ∈ (processPage today st cards).results, g ∈ (processPage today st cards).store := by
  induction cards generalizing st with
  | nil => exact hsub
  | cons c cs ih =>
    exact ih (processCard today st c) (processCard_results_sub today st c hsub)

theorem crawl_results_sub (today : Int) (pages : List Page) (st : ScrapeState)
    (hsub : ∀ g ∈ st.results, g ∈ st.store) :
    ∀ g ∈ (crawl today pages st).results, g ∈ (crawl today pages st).store := by
  induction pages generalizing st with
  | nil => exact hsub
  | cons p rest ih =>
    simp only [crawl]
    by_cases hf : p.fetchOk = true
    · rw [if_neg (by simp [hf])]
      by_cases hc : p.cards = []
      · rw [if_pos hc]
        exact hsub
      · rw [if_neg hc]
        by_cases hn : p.hasNext = true
        · rw [if_pos hn]
          exact ih (processPage today st p.cards)
            (processPage_results_sub today p.cards st hsub)
        · rw [if_neg hn]
          exact processPage_results_sub today p.cards st hsub
    · rw [if_pos (by simpa using hf)]
      exact hsub

/-! ## Claim theorems: acquisition pipeline (C2, C5) -/

/-- C2, counterexample: the claim asserts unconditionally that when
both tiers are empty "the scrape output is exported to the flat
cache".  With an empty store, no CSV cache and a web whose first
listing page carries zero cards, the crawl runs (the web is consulted)
but gathers nothing, and the source returns through the empty-result
path (lines 497-519) without ever calling `df.to_csv`: no snapshot is
written, so the scrape output (the empty set) is not exported. -/
theorem c2_export_skip_counterexample :
    (getGameData 0 false [] CsvCache.missing [⟨true, [], false⟩]).webConsulted = true ∧
    (crawl 0 [⟨true, [], false⟩] ⟨[], [], [], 0⟩).results = [] ∧
    (getGameData 0 false [] CsvCache.missing [⟨true, [], false⟩]).exportedCsv ≠
      some (crawl 0 [⟨true, [], false⟩] ⟨[], [], [], 0⟩).results := by
  decide

/-- C2, amended: with `force_refresh` false the three tiers fall
through in order.  A non-empty store is returned verbatim with neither
the CSV cache nor the web consulted; an empty store with well-formed
non-empty CSV rows returns those rows without a web fetch; with both
empty the crawl runs, every record it gathered is in the final store
(each was persisted the moment it was assembled), and the crawl output
is returned and exported as the CSV snapshot when it is non-empty — a
crawl that gathered nothing writes no snapshot. -/
theorem c2_three_tier_chain (today : Int) (store : List Game) (csv : CsvCache)
    (web : List Page) :
    (store ≠ [] →
      getGameData today false store csv web = ⟨store, store, none, false, false, []⟩) ∧
    (store = [] → ∀ gs, csv = CsvCache.rows gs → gs ≠ [] →
      getGameData today false store csv web = ⟨gs, store, none, true, false, []⟩) ∧
    (store = [] → csvValidRows csv = none →
      (getGameData today false store csv web).webConsulted = true ∧
      (∀ g ∈ (crawl today web ⟨[], [], [], 0⟩).results,
        g ∈ (getGameData today false store csv web).finalStore) ∧
      ((crawl today web ⟨[], [], [], 0⟩).results ≠ [] →
        (getGameData today false store csv web).returned =
          (crawl today web ⟨[], [], [], 0⟩).results ∧
        (getGameData today false store csv web).exportedCsv =
          some (crawl today web ⟨[], [], [], 0⟩).results) ∧
      ((crawl today web ⟨[], [], [], 0⟩).results = [] →
        (getGameData today false store csv web).exportedCsv = none)) := by
  refine ⟨?_, ?_, ?_⟩
  · intro hs
    rw [getGameData, if_pos ⟨rfl, hs⟩]
  · intro hs gs hcsv hgs
    subst hs
    subst hcsv
    have hv : csvValidRows (CsvCache.rows gs) = some gs := by
      simp [csvValidRows, hgs]
    rw [getGameData, if_neg (by simp), if_pos ⟨rfl, by simp [hv]⟩, hv]
    rfl
  · intro hs hv
    subst hs
    rw [getGameData, if_neg (by simp), if_neg (by simp [hv])]
    have hsub := crawl_results_sub today web ⟨[], [], [], 0⟩ (by simp)
    by_cases h1 : (crawl today web ⟨[], [], [], 0⟩).results = [] ∧
        (crawl today web ⟨[], [], [], 0⟩).processed = 0
    · rw [if_pos h1]
      exact ⟨rfl, fun g hg => hsub g hg, fun hne => absurd h1.1 hne, fun _ => rfl⟩
    · rw [if_neg h1]
      by_cases h2 : (crawl today web ⟨[], [], [], 0⟩).results = []
      · rw [if_pos h2]
        exact ⟨rfl, fun g hg => hsub g hg, fun hne => absurd h2 hne, fun _ => rfl⟩
      · rw [if_neg h2]
        exact ⟨rfl, fun g hg => hsub g hg, fun _ => ⟨rfl, rfl⟩, fun he => absurd he h2⟩

/-- C2, witness: the three tiers at concrete states — a populated
store is returned untouched; an empty store with a one-row CSV returns
the row; both empty with a one-card page yields a consulted web whose
(non-empty) output is returned and exported. -/
theorem c2_three_tier_chain_witness :
    getGameData 0 false [sampleA] CsvCache.missing [] =
      ⟨[sampleA], [sampleA], none, false, false, []⟩ ∧
    getGameData 0 false [] (CsvCache.rows [sampleB]) [] =
      ⟨[sampleB], [], none, true, false, []⟩ ∧
    (getGameData 0 false [] CsvCache.missing [samplePage]).webConsulted = true ∧
    (getGameData 0 false [] CsvCache.missing [samplePage]).returned =
      (crawl 0 [samplePage] ⟨[], [], [], 0⟩).results ∧
    (getGameData 0 false [] CsvCache.missing [samplePage]).exportedCsv =
      some (crawl 0 [samplePage] ⟨[], [], [], 0⟩).results := by
  have h1 := (c2_three_tier_chain 0 [sampleA] CsvCache.missing []).1 (by decide)
  have h2 := (c2_three_tier_chain 0 [] (CsvCache.rows [sampleB]) []).2.1 rfl
    [sampleB] rfl (by decide)
  have h3 := (c2_three_tier_chain 0 [] CsvCache.missing [samplePage]).2.2 rfl rfl
  have h4 := h3.2.2.1 (by decide)
  exact ⟨h1, h2, h3.1, h4.1, h4.2⟩

/-- C5: a title already in the store when its card is observed is
skipped entirely.  Processing such a card leaves the whole scrape
state unchanged (the store is not written, nothing is appended, no
detail page is accessed), and across a whole crawl a title present in
the store at the start is never among the newly accessed detail
pages. -/
theorem c5_dedup_never_refetch (today : Int) (st : ScrapeState) (pages : List Page)
    (c : Card) (t : String) (hex : existsInStore t st.store = true) :
    (c.title = some t → processCard today st c = st) ∧
    (t ∈ (crawl today pages st).detailPages → t ∈ st.detailPages) :=
  ⟨fun ht => processCard_skip today st c t ht hex,
   (crawl_preserve today pages st t hex).2⟩

/-- C5, witness: with "A" already stored, processing its card changes
nothing, and a crawl over a page holding that card accesses no new
detail page. -/
theorem c5_dedup_never_refetch_witness :
    processCard 0 ⟨[sampleA], [], ["A"], 0⟩ sampleCardA = ⟨[sampleA], [], ["A"], 0⟩ ∧
    "A" ∈ (⟨[sampleA], [], ["A"], 0⟩ : ScrapeState).detailPages := by
  have h := c5_dedup_never_refetch 0 ⟨[sampleA], [], ["A"], 0⟩
    [⟨true, [sampleCardA], false⟩] sampleCardA "A" (by decide)
  exact ⟨h.1 rfl, h.2 (by decide)⟩

end GameAnalyzer
